import Mathlib

/-!
Verification development for the jenkins-webhook relay (Go, `main.go`, two
program variants: a flat legacy payload shape and a nested "build object"
shape).  The translator component (payload conversion, status classification,
duration/timestamp formatting, build-variable parsing) is shallowly embedded
below; machine integers are modelled as `Int` with explicit two's-complement
wrapping where Go's int64 arithmetic can overflow, and Go's float64
arithmetic (`time.Duration.Hours/Minutes/Seconds`, `fmt.Sprintf "%.1f"`) is
modelled exactly over `ℚ` by rounding to 53-bit binary significands.
-/

set_option maxRecDepth 4000
set_option maxHeartbeats 1000000

/-! ## Discord payload structures (shared by both variants) -/

/-- Discord embed field record (`DiscordEmbedField` in main.go). -/
structure DiscordEmbedField where
  name : String
  value : String
  inline : Bool
deriving DecidableEq, Repr

/-- Discord embed footer record (`DiscordEmbedFooter` in main.go). -/
structure DiscordEmbedFooter where
  text : String
deriving DecidableEq, Repr

/-- Discord embed record (`DiscordEmbed` in main.go).  The color is a Go
`int` (24-bit RGB value). -/
structure DiscordEmbed where
  title : String
  description : String
  url : String
  color : ℤ
  fields : List DiscordEmbedField
  timestamp : String
  footer : Option DiscordEmbedFooter
deriving DecidableEq, Repr

/-- Top-level Discord webhook payload (`DiscordWebhook` in main.go). -/
structure DiscordWebhook where
  content : String
  embeds : List DiscordEmbed
deriving DecidableEq, Repr

/-! ## Character-list helpers modelling the Go strings package operations
used by the flat variant (`strings.Trim`, `strings.TrimSpace`,
`strings.Split`, `strings.SplitN(v, "=", 2)`). -/

/-- Go `strings.Trim(s, cutset)` on char lists: remove all leading and all
trailing characters satisfying `p`. -/
def trimL (p : Char → Bool) (l : List Char) : List Char :=
  ((l.dropWhile p).reverse.dropWhile p).reverse

/-- Go `unicode.IsSpace`: the Unicode White_Space code points. -/
def goIsSpace (c : Char) : Bool :=
  c == ' ' || c == '\t' || c == '\n' || c == '\u000B' || c == '\u000C' || c == '\r' ||
  c == '\u0085' || c == '\u00A0' || c == '\u1680' ||
  (decide (0x2000 ≤ c.toNat) && decide (c.toNat ≤ 0x200A)) ||
  c == '\u2028' || c == '\u2029' || c == '\u202F' || c == '\u205F' || c == '\u3000'

/-- Go `strings.TrimSpace`. -/
def goTrimSpace (s : String) : String :=
  String.mk (trimL goIsSpace s.data)

/-- Go `strings.Trim(s, "\x7b\x7d")`: strip all leading and trailing brace
characters (either of the two, at either end). -/
def trimBraces (s : String) : String :=
  String.mk (trimL (fun c => c == '\x7b' || c == '\x7d') s.data)

/-- Go `strings.Split(s, ", ")` on char lists: split around every
non-overlapping occurrence of the two-character separator comma-space,
scanning left to right; the empty input yields `[[]]`.  (The flat variant
only ever splits on the literal `", "`, so the separator is fixed here to
keep the recursion structural.) -/
def splitCommaSpaceL : List Char → List (List Char)
  | [] => [[]]
  | ',' :: ' ' :: rest => [] :: splitCommaSpaceL rest
  | c :: rest =>
    match splitCommaSpaceL rest with
    | [] => [[c]]
    | x :: xs => (c :: x) :: xs

/-- Go `strings.Split(s, ", ")` on strings. -/
def goSplitCommaSpace (s : String) : List String :=
  (splitCommaSpaceL s.data).map String.mk

/-- Go `strings.SplitN(v, "=", 2)`: split at the first `'='` only.  Returns
`some (before, after)` when an `'='` occurs (so `len(parts) == 2` in the Go
code), `none` otherwise (`len(parts) == 1`, entry dropped). -/
def splitFirstEq (l : List Char) : Option (List Char × List Char) :=
  match l.dropWhile (fun c => c != '=') with
  | _ :: after => some (l.takeWhile (fun c => c != '='), after)
  | [] => none

/-! ## Flat (legacy) variant -/

namespace Flat

/-- Inbound Jenkins payload, flat legacy shape (`JenkinsWebhook`, first
variant in main.go). -/
structure JenkinsWebhook where
  buildName : String
  buildUrl : String
  buildVars : String
  event : String
  projectName : String
deriving DecidableEq, Repr

/-- Model of `getEventColor` (main.go, flat variant, lines 149-164). -/
def getEventColor (event : String) : ℤ :=
  if event = "success" then 0x00FF00
  else if event = "failure" ∨ event = "failed" then 0xFF0000
  else if event = "unstable" then 0xFFA500
  else if event = "aborted" then 0x808080
  else if event = "started" then 0x0099FF
  else 0x808080

/-- Model of `getEventText` (main.go, flat variant, lines 166-181). -/
def getEventText (event : String) : String :=
  if event = "success" then "✅ Success"
  else if event = "failure" ∨ event = "failed" then "❌ Failure"
  else if event = "unstable" then "⚠️ Unstable"
  else if event = "aborted" then "🛑 Aborted"
  else if event = "started" then "🔄 Started"
  else event

/-- Model of `formatBuildVars` (main.go, flat variant, lines 183-206): the
spec's `ParseVars`. -/
def formatBuildVars (buildVars : String) : String :=
  if buildVars = "" then ""
  else
    let cleanVars := trimBraces buildVars
    if cleanVars = "" then ""
    else
      String.intercalate "\n" ((goSplitCommaSpace cleanVars).filterMap fun v =>
        match splitFirstEq v.data with
        | some (k, val) =>
          some ("**" ++ goTrimSpace (String.mk k) ++ "**: " ++ goTrimSpace (String.mk val))
        | none => none)

/-- Model of `convertToDiscordPayload` (main.go, flat variant, lines 94-147).
The Go
code stamps `time.Now().Format(time.RFC3339)` into the embed; the clock
reading is the explicit parameter `now` here. -/
def convertToDiscordPayload (now : String) (jenkins : JenkinsWebhook) : DiscordWebhook :=
  let color := getEventColor jenkins.event
  let timestamp := now
  let buildVarsFormatted := formatBuildVars jenkins.buildVars
  let fields : List DiscordEmbedField :=
    [{ name := "Build", value := jenkins.buildName, inline := true },
     { name := "Status", value := getEventText jenkins.event, inline := true },
     { name := "Project", value := jenkins.projectName, inline := true }]
  let fields := if buildVarsFormatted ≠ "" then
      fields ++ [{ name := "Build Variables", value := buildVarsFormatted, inline := false }]
    else fields
  { content := "",
    embeds := [{ title := jenkins.projectName ++ " - " ++ jenkins.buildName,
                 description := "Build " ++ jenkins.event,
                 url := jenkins.buildUrl,
                 color := color,
                 fields := fields,
                 timestamp := timestamp,
                 footer := some { text := "Jenkins CI/CD" } }] }

end Flat

/-! ## Exact model of the binary64 (Go float64) arithmetic used by
`formatDuration`: `time.Duration.Hours/Minutes/Seconds` and
`fmt.Sprintf("%.1f", _)`. -/

/-- Round a rational to the nearest integer, ties to the even integer (the
rounding used both by IEEE-754 binary64 arithmetic and by Go's
fixed-precision decimal formatting). -/
def nearestEven (q : ℚ) : ℤ :=
  let f := ⌊q⌋
  let r := q - f
  if r < 1/2 then f
  else if 1/2 < r then f + 1
  else if f % 2 = 0 then f else f + 1

/-- Two to an integer power `n` in `ℚ`, computed with `Nat` power. -/
def pow2 (n : ℤ) : ℚ :=
  if 0 ≤ n then ((2 ^ n.toNat : ℕ) : ℚ) else (((2 ^ (-n).toNat : ℕ) : ℚ))⁻¹

/-- Structural-recursion implementation of `Nat.log2` (core `Nat.log2` is
defined by well-founded recursion, which the kernel cannot evaluate); the
first argument is fuel, consumed once per halving. -/
def log2Fuel : ℕ → ℕ → ℕ
  | 0, _ => 0
  | fuel + 1, m => if 2 ≤ m then log2Fuel fuel (m / 2) + 1 else 0

/-- Kernel-computable `Nat.log2`: `m` itself is always enough fuel. -/
def natLog2 (m : ℕ) : ℕ := log2Fuel m m

/-- Binade window exponent: for `x > 0` the unique `n` with
`2^(n-1) ≤ x < 2^n`. -/
def wexp (x : ℚ) : ℤ :=
  let n0 : ℤ := (natLog2 x.num.natAbs : ℤ) - (natLog2 x.den : ℤ)
  if pow2 n0 ≤ x then n0 + 1 else n0

/-- Round a positive rational to the nearest IEEE-754 binary64 value: 53-bit
significand, round to nearest, ties to even.  (The magnitudes arising in
`formatDuration` are far from the subnormal and overflow ranges, so those
regimes need no modelling.) -/
def floatRoundPos (x : ℚ) : ℚ :=
  ((nearestEven (x * pow2 (53 - wexp x)) : ℤ) : ℚ) * pow2 (wexp x - 53)

/-- Round any rational to the nearest binary64 value (sign-symmetric). -/
def floatRound (x : ℚ) : ℚ :=
  if x = 0 then 0
  else if 0 < x then floatRoundPos x
  else -floatRoundPos (-x)

/-- Go `float64(k)` for an integer `k` (exact whenever `|k| < 2^53`, which
holds at every conversion site inside `formatDuration`). -/
def f64ofInt (k : ℤ) : ℚ := floatRound (k : ℚ)

/-- Go `fmt.Sprintf("%.1f", v)` for a binary64 value `v` given as its exact
rational value: the decimal digits are correctly rounded (ties to even) and
the sign is the sign of the value. -/
def fmt1f (v : ℚ) : String :=
  let t := nearestEven (v * 10)
  let a := t.natAbs
  (if v < 0 then "-" else "") ++ toString (a / 10) ++ "." ++ toString (a % 10)

namespace Nested

/-- Two's-complement wrap of a mathematical integer into int64 range: Go's
signed integer arithmetic wraps around modulo `2^64`. -/
def wrap64 (z : ℤ) : ℤ := (z + 2 ^ 63) % 2 ^ 64 - 2 ^ 63

/-- Model of `time.Duration.Hours()` for `d` nanoseconds:
`float64(d / Hour) + float64(d % Hour) / (60 * 60 * 1e9)` in binary64
arithmetic; Go's `/` and `%` on int64 truncate toward zero (`Int.tdiv`,
`Int.tmod`). -/
def durHours (d : ℤ) : ℚ :=
  floatRound (f64ofInt (Int.tdiv d 3600000000000) +
    floatRound (f64ofInt (Int.tmod d 3600000000000) / 3600000000000))

/-- Model of `time.Duration.Minutes()`:
`float64(d / Minute) + float64(d % Minute) / (60 * 1e9)`. -/
def durMinutes (d : ℤ) : ℚ :=
  floatRound (f64ofInt (Int.tdiv d 60000000000) +
    floatRound (f64ofInt (Int.tmod d 60000000000) / 60000000000))

/-- Model of `time.Duration.Seconds()`:
`float64(d / Second) + float64(d % Second) / 1e9`. -/
def durSeconds (d : ℤ) : ℚ :=
  floatRound (f64ofInt (Int.tdiv d 1000000000) +
    floatRound (f64ofInt (Int.tmod d 1000000000) / 1000000000))

/-- Model of `formatDuration` (main.go, nested variant, lines 524-538).
Here `duration`
is the inbound millisecond count (int64);
`d := time.Duration(duration) * time.Millisecond` multiplies by `10^6` in
wrapping int64 arithmetic. -/
def formatDuration (duration : ℤ) : String :=
  if duration = 0 then "N/A"
  else
    let d := wrap64 (duration * 1000000)
    if 1 ≤ durHours d then fmt1f (durHours d) ++ "h"
    else if 1 ≤ durMinutes d then fmt1f (durMinutes d) ++ "m"
    else fmt1f (durSeconds d) ++ "s"

end Nested

/-! ## Nested-variant classification (`getStatusColor` / `getStatusText`)

Go's `switch` on strings is a sequential case-sensitive comparison, embedded
here as an if-chain.  Note the first `switch result` in `getStatusColor` has
no `default` clause, so control falls through to the `switch status` below it
for every unrecognized (including non-empty) result value. -/

namespace Nested

/-- Model of `getStatusColor` (main.go, nested variant, lines 474-496). -/
def getStatusColor (result status : String) : ℤ :=
  if result = "SUCCESS" then 0x00FF00
  else if result = "FAILURE" then 0xFF0000
  else if result = "UNSTABLE" then 0xFFA500
  else if result = "ABORTED" then 0x808080
  else
    if status = "STARTED" then 0x0099FF
    else if status = "COMPLETED" then 0x00FF00
    else 0x808080

/-- Model of `getStatusText` (main.go, nested variant, lines 498-522). -/
def getStatusText (result status : String) : String :=
  if result ≠ "" then
    if result = "SUCCESS" then "✅ Success"
    else if result = "FAILURE" then "❌ Failure"
    else if result = "UNSTABLE" then "⚠️ Unstable"
    else if result = "ABORTED" then "🛑 Aborted"
    else result
  else
    if status = "STARTED" then "🔄 Started"
    else if status = "COMPLETED" then "✅ Completed"
    else status

/-- The spec's `Classify(result, status) -> (ColorCode, DisplayLabel)`:
the pair of the two classification helpers of the nested variant. -/
def Classify (result status : String) : ℤ × String :=
  (getStatusColor result status, getStatusText result status)

end Nested

namespace Nested

/-- Inbound build sub-record, nested shape (`Build` in main.go).  The
loosely-typed passthrough fields (`builtby`, `actions`, `parameters`,
`changeSets`, `culprits`, `nextBuild`, `previousBuild`) are accepted but
never read by the translator and are left out of the embedding (the spec
directs that they be treated as an uninterpreted bag). -/
structure Build where
  fullDisplayName : String
  number : ℤ
  queueId : ℤ
  timestamp : ℤ
  startTimeMillis : ℤ
  result : String
  duration : ℤ
  url : String
  cause : String
  phase : String
  status : String
deriving DecidableEq, Repr

/-- Inbound Jenkins payload, nested shape (`JenkinsWebhook`, second variant
in main.go). -/
structure JenkinsWebhook where
  name : String
  url : String
  build : Build
  displayName : String
deriving DecidableEq, Repr

/-- Model of `convertToDiscordPayload` (main.go, nested variant, lines 414-472).
The Go code renders `time.Unix(jenkins.Build.Timestamp/1000, 0)` as RFC-3339
in the local system timezone; that external rendering of an epoch-second
instant is the explicit parameter `fmtUnix` here (the division by 1000 is
Go int64 division, truncating toward zero). -/
def convertToDiscordPayload (fmtUnix : ℤ → String) (jenkins : JenkinsWebhook) : DiscordWebhook :=
  let color := getStatusColor jenkins.build.result jenkins.build.status
  let timestamp := fmtUnix (Int.tdiv jenkins.build.timestamp 1000)
  let duration := formatDuration jenkins.build.duration
  let fields : List DiscordEmbedField :=
    [{ name := "Build Number", value := "#" ++ toString jenkins.build.number, inline := true },
     { name := "Status", value := getStatusText jenkins.build.result jenkins.build.status,
       inline := true },
     { name := "Duration", value := duration, inline := true },
     { name := "Phase", value := jenkins.build.phase, inline := true }]
  let fields := if jenkins.build.cause ≠ "" then
      fields ++ [{ name := "Cause", value := jenkins.build.cause, inline := false }]
    else fields
  { content := "",
    embeds := [{ title := jenkins.displayName ++ " - Build #" ++ toString jenkins.build.number,
                 description := jenkins.build.fullDisplayName,
                 url := jenkins.build.url,
                 color := color,
                 fields := fields,
                 timestamp := timestamp,
                 footer := some { text := "Jenkins CI/CD" } }] }

end Nested

/-! ## Spec-side definitions (used to state claims, not taken from the
source code) -/

/-- Erase every embed timestamp in a payload (used to state which fields of
the flat variant's output depend on the wall clock). -/
def stripTimestamps (w : DiscordWebhook) : DiscordWebhook :=
  { w with embeds := w.embeds.map fun emb => { emb with timestamp := "" } }

/-- Modelled from the spec's description of `ParseVars` (section 4.1,
"Build-variables tolerant parser"), formulated independently of
`Flat.formatBuildVars`: strip braces, split on the literal `", "`, split
each entry at the first `'='` only (entries without `'='` are silently
dropped), render `"**key**: value"` with key and value trimmed, join with
newlines. -/
def parseVarsSpec (raw : String) : String :=
  let entries := splitCommaSpaceL (trimBraces raw).data
  let lines := entries.filterMap fun entry =>
    if '=' ∈ entry then
      some ("**" ++ goTrimSpace (String.mk (entry.takeWhile (fun c => c != '='))) ++
            "**: " ++ goTrimSpace (String.mk ((entry.dropWhile (fun c => c != '=')).tail)))
    else none
  String.intercalate "\n" lines

example : Nested.Classify "SUCCESS" "x" = (0x00FF00, "✅ Success") := by decide
example : Nested.Classify "" "STARTED" = (0x0099FF, "🔄 Started") := by decide
example : Nested.Classify "" "" = (0x808080, "") := by decide
example : Nested.Classify "weird-code" "" = (0x808080, "weird-code") := by decide
example : Nested.Classify "weird-code" "STARTED" = (0x0099FF, "weird-code") := by decide

example : Flat.formatBuildVars "\x7ba=1, b=2\x7d" = "**a**: 1\n**b**: 2" := by decide
example : Flat.formatBuildVars "\x7b\x7d" = "" := by decide
example : Flat.formatBuildVars "novalidpairs" = "" := by decide
example : Flat.formatBuildVars "a=1, bad, c=3" = "**a**: 1\n**c**: 3" := by decide
example : Flat.formatBuildVars "a=1\x7d" = "**a**: 1" := by decide
example : Flat.formatBuildVars "\x7b\x7ba=1\x7d\x7d" = "**a**: 1" := by decide

example : Nested.formatDuration 0 = "N/A" := by with_unfolding_all rfl
example : Nested.formatDuration 90000 = "1.5m" := by with_unfolding_all rfl
example : Nested.formatDuration 3600000 = "1.0h" := by with_unfolding_all rfl
example : Nested.formatDuration 5000 = "5.0s" := by with_unfolding_all rfl
example : Nested.formatDuration (-5000) = "-5.0s" := by with_unfolding_all rfl
example : Nested.formatDuration 125000 = "2.1m" := by with_unfolding_all rfl
example : Nested.formatDuration 10000000000000 = "-8446744073.7s" := by with_unfolding_all rfl
example : Nested.formatDuration (-10000000000000) = "2346317.8h" := by with_unfolding_all rfl

/-! ## Claim C1 -/

/-- Claim C1: the claim states that for a non-empty result outside the fixed
vocabulary the classification returns gray `0x808080` regardless of the
status, the status never being consulted.  The code contradicts this: the
`switch result` in `getStatusColor` has no default clause, so an
unrecognized non-empty result falls through to the `switch status`, and
`Classify("weird-code", "STARTED")` yields blue `0x0099FF` (the display
label is the raw result, as claimed).  This theorem evaluates the code at
the failing input. -/
theorem c1_unrecognized_result_color_consults_status :
    Nested.Classify "weird-code" "STARTED" = (0x0099FF, "weird-code") ∧
    Nested.Classify "weird-code" "COMPLETED" = (0x00FF00, "weird-code") ∧
    Nested.Classify "weird-code" "" = (0x808080, "weird-code") := by
  refine ⟨?_, ?_, ?_⟩ <;> rfl

/-! ## Claim C4 -/

/-- Claim C4: with an empty result, classification branches on the status by
case-sensitive exact match: `"STARTED"` maps to blue `0x0099FF` with label
`"🔄 Started"`, `"COMPLETED"` to green `0x00FF00` with `"✅ Completed"`, and
any other status (including the empty string) to gray `0x808080` with the
raw status as label. -/
theorem c4_classify_empty_result (s : String) :
    Nested.Classify "" s =
      if s = "STARTED" then ((0x0099FF : ℤ), "🔄 Started")
      else if s = "COMPLETED" then ((0x00FF00 : ℤ), "✅ Completed")
      else ((0x808080 : ℤ), s) := by
  by_cases h1 : s = "STARTED"
  · subst h1; rfl
  · by_cases h2 : s = "COMPLETED"
    · subst h2; rfl
    · simp only [Nested.Classify, Nested.getStatusColor, Nested.getStatusText,
        if_neg h1, if_neg h2]
      rfl

/-! ## Claim C5 -/

/-- Claim C5: classification of a recognized result is a case-sensitive
exact match and is independent of the status: `"SUCCESS"` maps to green
`0x00FF00`/`"✅ Success"`, `"FAILURE"` to red `0xFF0000`/`"❌ Failure"`,
`"UNSTABLE"` to orange `0xFFA500`/`"⚠️ Unstable"`, `"ABORTED"` to gray
`0x808080`/`"🛑 Aborted"`, for every status string `s`. -/
theorem c5_classify_recognized_result (s : String) :
    Nested.Classify "SUCCESS" s = ((0x00FF00 : ℤ), "✅ Success") ∧
    Nested.Classify "FAILURE" s = ((0xFF0000 : ℤ), "❌ Failure") ∧
    Nested.Classify "UNSTABLE" s = ((0xFFA500 : ℤ), "⚠️ Unstable") ∧
    Nested.Classify "ABORTED" s = ((0x808080 : ℤ), "🛑 Aborted") := by
  refine ⟨?_, ?_, ?_, ?_⟩ <;> rfl

/-! ## Claim C3 -/

/-- Claim C3 counterexample: the flat variant's `convertToDiscordPayload`
stamps the current wall-clock time (`time.Now()`) into the card, so two
invocations on the same event at different clock readings produce different
notifications, refuting "every field of the produced record, including the
card timestamp, depends only on the event value" for the flat variant. -/
theorem c3_flat_convert_clock_dependent :
    Flat.convertToDiscordPayload "2024-01-01T00:00:00Z"
        { buildName := "app", buildUrl := "http://jenkins/job/app/1/",
          buildVars := "", event := "success", projectName := "proj" } ≠
      Flat.convertToDiscordPayload "2024-01-01T00:00:01Z"
        { buildName := "app", buildUrl := "http://jenkins/job/app/1/",
          buildVars := "", event := "success", projectName := "proj" } := by
  decide

/-- Claim C3 (amended): the nested variant's `Convert` is deterministic —
equal events (under the one process-fixed timestamp renderer) produce equal
notifications — and the flat variant is deterministic in every field except
the card timestamp: its outputs for any two clock readings agree once the
embed timestamps are erased. -/
theorem c3_convert_determinism :
    (∀ (fmtUnix : ℤ → String) (e₁ e₂ : Nested.JenkinsWebhook), e₁ = e₂ →
      Nested.convertToDiscordPayload fmtUnix e₁ =
        Nested.convertToDiscordPayload fmtUnix e₂) ∧
    (∀ (now₁ now₂ : String) (e : Flat.JenkinsWebhook),
      stripTimestamps (Flat.convertToDiscordPayload now₁ e) =
        stripTimestamps (Flat.convertToDiscordPayload now₂ e)) := by
  constructor
  · intro fmtUnix e₁ e₂ h
    rw [h]
  · intro now₁ now₂ e
    rfl

/-- Witness for `c3_convert_determinism` at concrete inputs. -/
theorem c3_convert_determinism_witness :
    Nested.convertToDiscordPayload toString
        { name := "app", url := "u", displayName := "App",
          build := { fullDisplayName := "App #1", number := 1, queueId := 0,
                     timestamp := 0, startTimeMillis := 0, result := "SUCCESS",
                     duration := 0, url := "bu", cause := "", phase := "FINALIZED",
                     status := "" } } =
      Nested.convertToDiscordPayload toString
        { name := "app", url := "u", displayName := "App",
          build := { fullDisplayName := "App #1", number := 1, queueId := 0,
                     timestamp := 0, startTimeMillis := 0, result := "SUCCESS",
                     duration := 0, url := "bu", cause := "", phase := "FINALIZED",
                     status := "" } } ∧
    stripTimestamps (Flat.convertToDiscordPayload "2024-01-01T00:00:00Z"
        { buildName := "app", buildUrl := "bu", buildVars := "",
          event := "success", projectName := "proj" }) =
      stripTimestamps (Flat.convertToDiscordPayload "2024-01-01T00:00:01Z"
        { buildName := "app", buildUrl := "bu", buildVars := "",
          event := "success", projectName := "proj" }) :=
  ⟨c3_convert_determinism.1 toString _ _ rfl,
   c3_convert_determinism.2 "2024-01-01T00:00:00Z" "2024-01-01T00:00:01Z" _⟩

/-! ## Claim C8 -/

/-- Claim C8: the nested variant produces exactly one card; its title is
`"{displayName} - Build #{number}"`, its description the build's full
display name, its link the build URL, its footer the literal
`"Jenkins CI/CD"`; the fields are, in order, Build Number (`"#{number}"`,
inline), Status (classified label, inline), Duration (formatted, inline),
Phase (raw phase, inline), plus a non-inline "Cause" field exactly when the
cause is non-empty, so the field count is 5 or 4 depending solely on
whether the cause is non-empty. -/
theorem c8_nested_card_shape (fmtUnix : ℤ → String) (e : Nested.JenkinsWebhook) :
    (Nested.convertToDiscordPayload fmtUnix e).embeds.map
        (fun emb => (emb.title, emb.description, emb.url, emb.footer,
          emb.fields.map fun f => (f.name, f.inline),
          emb.fields.map DiscordEmbedField.value)) =
      [(e.displayName ++ " - Build #" ++ toString e.build.number,
        e.build.fullDisplayName,
        e.build.url,
        some { text := "Jenkins CI/CD" },
        [("Build Number", true), ("Status", true), ("Duration", true), ("Phase", true)] ++
          (if e.build.cause ≠ "" then [("Cause", false)] else []),
        ["#" ++ toString e.build.number,
         Nested.getStatusText e.build.result e.build.status,
         Nested.formatDuration e.build.duration,
         e.build.phase] ++
          (if e.build.cause ≠ "" then [e.build.cause] else []))] ∧
    (Nested.convertToDiscordPayload fmtUnix e).embeds.map
        (fun emb => emb.fields.length) =
      [if e.build.cause ≠ "" then 5 else 4] := by
  by_cases hc : e.build.cause = ""
  · simp [Nested.convertToDiscordPayload, hc]
  · simp [Nested.convertToDiscordPayload, hc]

/-! ## Claim C9 -/

/-- Claim C9: the nested variant computes the card timestamp by truncating
integer division of the inbound epoch-millisecond value by 1000 and rendering
the resulting epoch second through the process's local-timezone RFC-3339
renderer (the abstract `fmtUnix`); consequently any two inbound timestamps
with the same truncated second render identically. -/
theorem c9_timestamp_truncation (fmtUnix : ℤ → String)
    (e₁ e₂ : Nested.JenkinsWebhook) :
    ((Nested.convertToDiscordPayload fmtUnix e₁).embeds.map fun emb => emb.timestamp) =
      [fmtUnix (Int.tdiv e₁.build.timestamp 1000)] ∧
    (Int.tdiv e₁.build.timestamp 1000 = Int.tdiv e₂.build.timestamp 1000 →
      ((Nested.convertToDiscordPayload fmtUnix e₁).embeds.map fun emb => emb.timestamp) =
        ((Nested.convertToDiscordPayload fmtUnix e₂).embeds.map fun emb => emb.timestamp)) := by
  refine ⟨rfl, fun h => ?_⟩
  simp only [Nested.convertToDiscordPayload]
  simp [h]

/-- Witness for `c9_timestamp_truncation`: timestamps 1999 ms and 1000 ms lie
in the same whole second (both truncate to second 1, showing sub-second
precision is discarded rather than rounded) and render identically. -/
theorem c9_timestamp_truncation_witness :
    Int.tdiv 1999 1000 = Int.tdiv 1000 1000 ∧
    ((Nested.convertToDiscordPayload toString
        { name := "a", url := "u", displayName := "A",
          build := { fullDisplayName := "A #1", number := 1, queueId := 0,
                     timestamp := 1999, startTimeMillis := 0, result := "",
                     duration := 0, url := "bu", cause := "", phase := "STARTED",
                     status := "STARTED" } }).embeds.map fun emb => emb.timestamp) =
      ((Nested.convertToDiscordPayload toString
        { name := "a", url := "u", displayName := "A",
          build := { fullDisplayName := "A #1", number := 1, queueId := 0,
                     timestamp := 1000, startTimeMillis := 0, result := "",
                     duration := 0, url := "bu", cause := "", phase := "STARTED",
                     status := "STARTED" } }).embeds.map fun emb => emb.timestamp) :=
  ⟨by decide,
   (c9_timestamp_truncation toString _ _).2 (by decide)⟩

/-! ## Lemmas about the Go string helpers -/

theorem trimL_cons_of_pos (p : Char → Bool) (c : Char) (l : List Char) (h : p c = true) :
    trimL p (c :: l) = trimL p l := by
  simp [trimL, List.dropWhile_cons_of_pos h]

theorem trimL_append_of_pos (p : Char → Bool) (l : List Char) (c : Char) (h : p c = true) :
    trimL p (l ++ [c]) = trimL p l := by
  unfold trimL
  rw [List.dropWhile_append]
  by_cases hE : (l.dropWhile p).isEmpty
  · rw [if_pos hE]
    rw [List.isEmpty_iff.mp hE]
    simp [List.dropWhile_cons_of_pos h]
  · rw [if_neg hE]
    rw [List.reverse_append]
    simp [List.dropWhile_cons_of_pos h]

theorem mem_iff_dropWhile_bne (l : List Char) :
    '=' ∈ l ↔ l.dropWhile (fun c => c != '=') ≠ [] := by
  rw [Ne, List.dropWhile_eq_nil_iff]
  constructor
  · intro hm hall
    have := hall '=' hm
    simp at this
  · intro h
    by_contra hm
    apply h
    intro x hx
    simp only [bne_iff_ne, ne_eq, decide_eq_true_eq]
    intro hx'
    exact hm (hx' ▸ hx)

theorem splitFirstEq_eq_spec (l : List Char) :
    splitFirstEq l =
      if '=' ∈ l then
        some (l.takeWhile (fun c => c != '='), (l.dropWhile (fun c => c != '=')).tail)
      else none := by
  unfold splitFirstEq
  by_cases hm : '=' ∈ l
  · rw [if_pos hm]
    obtain ⟨a, after, heq⟩ : ∃ a after, l.dropWhile (fun c => c != '=') = a :: after := by
      rcases hd : l.dropWhile (fun c => c != '=') with _ | ⟨a, after⟩
      · exact absurd hd ((mem_iff_dropWhile_bne l).mp hm)
      · exact ⟨a, after, rfl⟩
    rw [heq]
    rfl
  · rw [if_neg hm]
    have hnil : l.dropWhile (fun c => c != '=') = [] := by
      by_contra h
      exact hm ((mem_iff_dropWhile_bne l).mpr h)
    rw [hnil]

theorem trimBraces_brace_cons (s : String) :
    trimBraces ("\x7b" ++ s) = trimBraces s ∧ trimBraces ("\x7d" ++ s) = trimBraces s := by
  constructor <;>
    · unfold trimBraces
      rw [String.data_append]
      exact congrArg String.mk (trimL_cons_of_pos _ _ _ (by decide))

theorem trimBraces_brace_append (s : String) :
    trimBraces (s ++ "\x7b") = trimBraces s ∧ trimBraces (s ++ "\x7d") = trimBraces s := by
  constructor <;>
    · unfold trimBraces
      rw [String.data_append]
      exact congrArg String.mk (trimL_append_of_pos _ _ _ (by decide))

/-- The body of `Flat.formatBuildVars` after the brace strip (helper for
relating the function to the strip of its input). -/
def formatVarsCore (cleanVars : String) : String :=
  if cleanVars = "" then ""
  else
    String.intercalate "\n" ((goSplitCommaSpace cleanVars).filterMap fun v =>
      match splitFirstEq v.data with
      | some (k, val) =>
        some ("**" ++ goTrimSpace (String.mk k) ++ "**: " ++ goTrimSpace (String.mk val))
      | none => none)

theorem formatBuildVars_eq_core (t : String) :
    Flat.formatBuildVars t = formatVarsCore (trimBraces t) := by
  by_cases h0 : t = ""
  · subst h0; rfl
  · simp only [Flat.formatBuildVars, formatVarsCore, if_neg h0]

/-! ## Claim C2 -/

/-- Claim C2 counterexample: the claim says a leading and trailing brace are
stripped only when both are present at the very ends (so `"a=1\x7d"` would be
left unstripped and render as `"**a**: 1\x7d"`).  The code uses
`strings.Trim(buildVars, "\x7b\x7d")`, which strips the lone trailing brace:
the actual output is `"**a**: 1"`. -/
theorem c2_lone_trailing_brace_is_stripped :
    Flat.formatBuildVars "a=1\x7d" = "**a**: 1" ∧ "**a**: 1" ≠ "**a**: 1\x7d" := by
  exact ⟨by decide, by decide⟩

/-- Claim C2 (amended): `ParseVars` strips all leading and all trailing
brace characters — either of `'\x7b'`/`'\x7d'`, in any mix, at each end —
before parsing, not just one matched outer pair: prepending or appending a
brace character never changes the result, doubled braces are stripped
entirely, a lone trailing brace is stripped, and brace characters in the
interior are preserved. -/
theorem c2_brace_stripping (s : String) :
    Flat.formatBuildVars ("\x7b" ++ s) = Flat.formatBuildVars s ∧
    Flat.formatBuildVars ("\x7d" ++ s) = Flat.formatBuildVars s ∧
    Flat.formatBuildVars (s ++ "\x7b") = Flat.formatBuildVars s ∧
    Flat.formatBuildVars (s ++ "\x7d") = Flat.formatBuildVars s ∧
    Flat.formatBuildVars "\x7b\x7ba=1\x7d\x7d" = "**a**: 1" ∧
    Flat.formatBuildVars "a=\x7bb\x7d=c, d=2" = "**a**: \x7bb\x7d=c\n**d**: 2" := by
  refine ⟨?_, ?_, ?_, ?_, by decide, by decide⟩ <;>
    rw [formatBuildVars_eq_core, formatBuildVars_eq_core]
  · rw [(trimBraces_brace_cons s).1]
  · rw [(trimBraces_brace_cons s).2]
  · rw [(trimBraces_brace_append s).1]
  · rw [(trimBraces_brace_append s).2]

/-! ## Claim C7 -/

/-- Claim C7: after brace stripping, `ParseVars` splits on the literal
`", "`, splits each entry at the first `'='` only (values may contain
`'='`), silently drops entries without an `'='`, renders survivors as
`"**key**: value"` with key and value trimmed, and joins with newlines
(stated as extensional equality with `parseVarsSpec`, the pipeline written
from the spec's words); the spec's four examples hold. -/
theorem c7_parse_vars_pipeline :
    (∀ raw : String, Flat.formatBuildVars raw = parseVarsSpec raw) ∧
    Flat.formatBuildVars "\x7ba=1, b=2\x7d" = "**a**: 1\n**b**: 2" ∧
    Flat.formatBuildVars "\x7b\x7d" = "" ∧
    Flat.formatBuildVars "novalidpairs" = "" ∧
    Flat.formatBuildVars "a=1, bad, c=3" = "**a**: 1\n**c**: 3" := by
  refine ⟨?_, by decide, by decide, by decide, by decide⟩
  intro raw
  by_cases h0 : raw = ""
  · subst h0; rfl
  · by_cases h1 : trimBraces raw = ""
    · simp only [Flat.formatBuildVars, parseVarsSpec, if_neg h0, h1]
      rfl
    · simp only [Flat.formatBuildVars, parseVarsSpec, if_neg h0, if_neg h1,
        goSplitCommaSpace]
      rw [List.filterMap_map]
      refine congrArg (String.intercalate "\n") (List.filterMap_congr fun entry _ => ?_)
      show (match splitFirstEq entry with
        | some (k, val) =>
          some ("**" ++ goTrimSpace (String.mk k) ++ "**: " ++ goTrimSpace (String.mk val))
        | none => none) = _
      rw [splitFirstEq_eq_spec]
      by_cases hm : '=' ∈ entry
      · rw [if_pos hm, if_pos hm]
      · rw [if_neg hm, if_neg hm]

/-! ## Lemmas about the binary64 rounding model -/

theorem pow2_eq_zpow (n : ℤ) : pow2 n = (2 : ℚ) ^ n := by
  unfold pow2
  split_ifs with h
  · push_cast
    rw [← zpow_natCast (2:ℚ) n.toNat, Int.toNat_of_nonneg h]
  · push_cast
    rw [← zpow_natCast (2:ℚ) (-n).toNat, Int.toNat_of_nonneg (by omega : (0:ℤ) ≤ -n),
      zpow_neg, inv_inv]

theorem pow2_pos (n : ℤ) : 0 < pow2 n := by
  rw [pow2_eq_zpow]
  exact zpow_pos (by norm_num) n

theorem pow2_add (m n : ℤ) : pow2 (m + n) = pow2 m * pow2 n := by
  rw [pow2_eq_zpow, pow2_eq_zpow, pow2_eq_zpow]
  exact zpow_add₀ (by norm_num) m n

theorem pow2_zero : pow2 0 = 1 := by
  rw [pow2_eq_zpow]
  rfl

theorem pow2_le_pow2 {m n : ℤ} (h : m ≤ n) : pow2 m ≤ pow2 n := by
  rw [pow2_eq_zpow, pow2_eq_zpow]
  exact zpow_le_zpow_right₀ one_le_two h

theorem pow2_lt_pow2 {m n : ℤ} (h : m < n) : pow2 m < pow2 n := by
  rw [pow2_eq_zpow, pow2_eq_zpow]
  exact zpow_lt_zpow_right₀ one_lt_two h

theorem pow2_sub (m n : ℤ) : pow2 (m - n) = pow2 m / pow2 n := by
  rw [pow2_eq_zpow, pow2_eq_zpow, pow2_eq_zpow]
  exact zpow_sub₀ (by norm_num) m n

theorem pow2_nonneg_eq (n : ℤ) (h : 0 ≤ n) : pow2 n = ((2 ^ n.toNat : ℤ) : ℚ) := by
  unfold pow2
  rw [if_pos h]
  push_cast
  rfl

theorem log2Fuel_eq (fuel : ℕ) : ∀ m : ℕ, m ≤ fuel → log2Fuel fuel m = Nat.log2 m := by
  induction fuel with
  | zero =>
    intro m hm
    have : m = 0 := Nat.le_zero.mp hm
    subst this
    rw [Nat.log2]
    rfl
  | succ fuel ih =>
    intro m hm
    show (if 2 ≤ m then log2Fuel fuel (m / 2) + 1 else 0) = Nat.log2 m
    rw [Nat.log2]
    by_cases h2 : 2 ≤ m
    · rw [if_pos h2, if_pos h2, ih (m / 2) (by omega)]
    · rw [if_neg h2, if_neg h2]

theorem natLog2_eq (m : ℕ) : natLog2 m = Nat.log2 m := log2Fuel_eq m m le_rfl

theorem wexp_spec {x : ℚ} (hx : 0 < x) : pow2 (wexp x - 1) ≤ x ∧ x < pow2 (wexp x) := by
  have hnum : 0 < x.num := Rat.num_pos.mpr hx
  have hp0 : x.num.natAbs ≠ 0 := Int.natAbs_ne_zero.mpr (ne_of_gt hnum)
  have hq0 : x.den ≠ 0 := x.den_nz
  have hppos : (0:ℚ) < (x.num.natAbs : ℚ) := by
    exact_mod_cast Nat.pos_of_ne_zero hp0
  have hqpos : (0:ℚ) < (x.den : ℚ) := by
    exact_mod_cast x.pos
  have hxpq : x = (x.num.natAbs : ℚ) / (x.den : ℚ) := by
    have h2 : ((x.num.natAbs : ℕ) : ℚ) = (x.num : ℚ) := by
      rw [Int.cast_natAbs]
      norm_cast
      exact abs_of_nonneg hnum.le
    rw [h2, Rat.num_div_den x]
  set lp : ℤ := (Nat.log2 x.num.natAbs : ℤ) with hlp
  set lq : ℤ := (Nat.log2 x.den : ℤ) with hlq
  have hpl : ((2 ^ Nat.log2 x.num.natAbs : ℕ) : ℚ) ≤ (x.num.natAbs : ℚ) := by
    exact_mod_cast Nat.log2_self_le hp0
  have hpu : (x.num.natAbs : ℚ) < ((2 ^ (Nat.log2 x.num.natAbs + 1) : ℕ) : ℚ) := by
    exact_mod_cast Nat.lt_log2_self
  have hql : ((2 ^ Nat.log2 x.den : ℕ) : ℚ) ≤ (x.den : ℚ) := by
    exact_mod_cast Nat.log2_self_le hq0
  have hqu : (x.den : ℚ) < ((2 ^ (Nat.log2 x.den + 1) : ℕ) : ℚ) := by
    exact_mod_cast Nat.lt_log2_self
  have hplq : pow2 lp = ((2 ^ Nat.log2 x.num.natAbs : ℕ) : ℚ) := by
    rw [hlp, pow2_nonneg_eq _ (by omega)]
    push_cast
    congr 1
  have hpuq : pow2 (lp + 1) = ((2 ^ (Nat.log2 x.num.natAbs + 1) : ℕ) : ℚ) := by
    rw [hlp, pow2_nonneg_eq _ (by omega)]
    push_cast
    congr 1
  have hqlq : pow2 lq = ((2 ^ Nat.log2 x.den : ℕ) : ℚ) := by
    rw [hlq, pow2_nonneg_eq _ (by omega)]
    push_cast
    congr 1
  have hquq : pow2 (lq + 1) = ((2 ^ (Nat.log2 x.den + 1) : ℕ) : ℚ) := by
    rw [hlq, pow2_nonneg_eq _ (by omega)]
    push_cast
    congr 1
  have hlow : pow2 (lp - lq - 1) < x := by
    have h1 : lp - lq - 1 = lp - (lq + 1) := by ring
    rw [h1, pow2_sub, hxpq, div_lt_div_iff₀ (pow2_pos _) hqpos, hplq, hquq]
    calc ((2 ^ Nat.log2 x.num.natAbs : ℕ) : ℚ) * (x.den : ℚ)
        ≤ (x.num.natAbs : ℚ) * (x.den : ℚ) := by
          exact mul_le_mul_of_nonneg_right hpl hqpos.le
      _ < (x.num.natAbs : ℚ) * ((2 ^ (Nat.log2 x.den + 1) : ℕ) : ℚ) := by
          exact mul_lt_mul_of_pos_left hqu hppos
  have hup : x < pow2 (lp - lq + 1) := by
    have h1 : lp - lq + 1 = (lp + 1) - lq := by ring
    rw [h1, pow2_sub, hxpq, div_lt_div_iff₀ hqpos (pow2_pos _), hpuq, hqlq]
    calc (x.num.natAbs : ℚ) * ((2 ^ Nat.log2 x.den : ℕ) : ℚ)
        ≤ (x.num.natAbs : ℚ) * (x.den : ℚ) := by
          exact mul_le_mul_of_nonneg_left hql hppos.le
      _ < ((2 ^ (Nat.log2 x.num.natAbs + 1) : ℕ) : ℚ) * (x.den : ℚ) := by
          exact mul_lt_mul_of_pos_right hpu hqpos
  have hwexp : wexp x = if pow2 (lp - lq) ≤ x then lp - lq + 1 else lp - lq := by
    simp only [wexp, natLog2_eq, hlp, hlq]
  rw [hwexp]
  by_cases hbr : pow2 (lp - lq) ≤ x
  · rw [if_pos hbr]
    constructor
    · have h1 : lp - lq + 1 - 1 = lp - lq := by ring
      rw [h1]
      exact hbr
    · exact hup
  · rw [if_neg hbr]
    exact ⟨le_of_lt hlow, lt_of_not_le hbr⟩

theorem le_nearestEven (q : ℚ) : q - 1/2 ≤ (nearestEven q : ℚ) := by
  simp only [nearestEven]
  have hfl : ((⌊q⌋ : ℤ) : ℚ) ≤ q := Int.floor_le q
  have hfu : q < ((⌊q⌋ : ℤ) : ℚ) + 1 := Int.lt_floor_add_one q
  split_ifs with h1 h2 h3 <;> push_cast <;> linarith

theorem nearestEven_le (q : ℚ) : (nearestEven q : ℚ) ≤ q + 1/2 := by
  simp only [nearestEven]
  have hfl : ((⌊q⌋ : ℤ) : ℚ) ≤ q := Int.floor_le q
  have hfu : q < ((⌊q⌋ : ℤ) : ℚ) + 1 := Int.lt_floor_add_one q
  split_ifs with h1 h2 h3 <;> push_cast <;> linarith

theorem floatRoundPos_arg_lb {x : ℚ} (hx : 0 < x) :
    pow2 52 ≤ x * pow2 (53 - wexp x) := by
  have h := (wexp_spec hx).1
  have he : (wexp x - 1) + (53 - wexp x) = 52 := by ring
  calc pow2 52 = pow2 (wexp x - 1) * pow2 (53 - wexp x) := by rw [← pow2_add, he]
    _ ≤ x * pow2 (53 - wexp x) := mul_le_mul_of_nonneg_right h (pow2_pos _).le

theorem floatRoundPos_arg_ub {x : ℚ} (hx : 0 < x) :
    x * pow2 (53 - wexp x) < pow2 53 := by
  have h := (wexp_spec hx).2
  have he : wexp x + (53 - wexp x) = 53 := by ring
  calc x * pow2 (53 - wexp x) < pow2 (wexp x) * pow2 (53 - wexp x) :=
        mul_lt_mul_of_pos_right h (pow2_pos _)
    _ = pow2 53 := by rw [← pow2_add, he]

theorem pow2_fiftytwo : pow2 52 = ((2 ^ 52 : ℤ) : ℚ) := by
  rw [pow2_nonneg_eq 52 (by norm_num)]
  norm_num
  decide

theorem pow2_fiftythree : pow2 53 = ((2 ^ 53 : ℤ) : ℚ) := by
  rw [pow2_nonneg_eq 53 (by norm_num)]
  norm_num
  decide

theorem floatRoundPos_m_lb {x : ℚ} (hx : 0 < x) :
    (2 : ℤ) ^ 52 ≤ nearestEven (x * pow2 (53 - wexp x)) := by
  have h1 := le_nearestEven (x * pow2 (53 - wexp x))
  have h2 := floatRoundPos_arg_lb hx
  have h3 : ((2 ^ 52 - 1 : ℤ) : ℚ) < (nearestEven (x * pow2 (53 - wexp x)) : ℚ) := by
    rw [pow2_fiftytwo] at h2
    push_cast at h2 ⊢
    linarith
  have h4 : (2 ^ 52 - 1 : ℤ) < nearestEven (x * pow2 (53 - wexp x)) := by
    exact_mod_cast h3
  omega

theorem floatRoundPos_m_ub {x : ℚ} (hx : 0 < x) :
    nearestEven (x * pow2 (53 - wexp x)) ≤ (2 : ℤ) ^ 53 := by
  have h1 := nearestEven_le (x * pow2 (53 - wexp x))
  have h2 := floatRoundPos_arg_ub hx
  have h3 : (nearestEven (x * pow2 (53 - wexp x)) : ℚ) < ((2 ^ 53 : ℤ) : ℚ) + 1 := by
    rw [pow2_fiftythree] at h2
    push_cast at h2 ⊢
    linarith
  have h4 : nearestEven (x * pow2 (53 - wexp x)) < (2 ^ 53 : ℤ) + 1 := by
    exact_mod_cast h3
  omega

theorem floatRoundPos_nonneg {x : ℚ} (hx : 0 < x) : 0 ≤ floatRoundPos x := by
  unfold floatRoundPos
  have h := floatRoundPos_m_lb hx
  have h1 : (0 : ℚ) ≤ (nearestEven (x * pow2 (53 - wexp x)) : ℚ) := by
    exact_mod_cast le_trans (by positivity) h
  exact mul_nonneg h1 (pow2_pos _).le

theorem floatRound_nonneg {x : ℚ} (hx : 0 ≤ x) : 0 ≤ floatRound x := by
  unfold floatRound
  split_ifs with h1 h2
  · exact le_refl 0
  · exact floatRoundPos_nonneg h2
  · exact absurd (lt_of_le_of_ne hx (Ne.symm h1)) h2

theorem floatRound_nonpos {x : ℚ} (hx : x ≤ 0) : floatRound x ≤ 0 := by
  unfold floatRound
  split_ifs with h1 h2
  · exact le_refl 0
  · exact absurd (lt_of_le_of_ne hx (by exact h1)) (not_lt.mpr h2.le)
  · have hneg : 0 < -x := by
      rcases lt_or_eq_of_le hx with h | h
      · linarith
      · exact absurd h h1
    linarith [floatRoundPos_nonneg hneg]

theorem one_le_floatRound {x : ℚ} (hx : 1 ≤ x) : 1 ≤ floatRound x := by
  have hx0 : 0 < x := lt_of_lt_of_le one_pos hx
  unfold floatRound
  rw [if_neg (ne_of_gt hx0), if_pos hx0]
  have hn : 1 ≤ wexp x := by
    by_contra h
    push_neg at h
    have h2 : pow2 (wexp x) ≤ pow2 0 := pow2_le_pow2 (by omega)
    rw [pow2_zero] at h2
    linarith [(wexp_spec hx0).2]
  unfold floatRoundPos
  have hm := floatRoundPos_m_lb hx0
  have hm' : ((2 ^ 52 : ℤ) : ℚ) ≤ (nearestEven (x * pow2 (53 - wexp x)) : ℚ) := by
    exact_mod_cast hm
  have he : 52 + (wexp x - 53) = wexp x - 1 := by ring
  calc (1 : ℚ) = pow2 0 := pow2_zero.symm
    _ ≤ pow2 (wexp x - 1) := pow2_le_pow2 (by omega)
    _ = pow2 52 * pow2 (wexp x - 53) := by rw [← pow2_add, he]
    _ ≤ (nearestEven (x * pow2 (53 - wexp x)) : ℚ) * pow2 (wexp x - 53) := by
        rw [pow2_fiftytwo]
        exact mul_le_mul_of_nonneg_right hm' (pow2_pos _).le

theorem nearestEven_intCast (z : ℤ) : nearestEven (z : ℚ) = z := by
  simp only [nearestEven]
  rw [Int.floor_intCast]
  norm_num

theorem pow2_neg (n : ℤ) : pow2 (-n) = (pow2 n)⁻¹ := by
  rw [pow2_eq_zpow, pow2_eq_zpow]
  exact zpow_neg 2 n

theorem pow2_val_53 : pow2 53 = 9007199254740992 := by with_unfolding_all rfl

theorem pow2_val_10 : pow2 10 = 1024 := by with_unfolding_all rfl

theorem pow2_val_neg1 : pow2 (-1) = 1 / 2 := by with_unfolding_all rfl

theorem pow2_val_neg42 : pow2 (-42) = 1 / 4398046511104 := by with_unfolding_all rfl

theorem pow2_val_neg43 : pow2 (-43) = 1 / 8796093022208 := by with_unfolding_all rfl

theorem pow2_val_neg53 : pow2 (-53) = 1 / 9007199254740992 := by with_unfolding_all rfl

theorem pow2_val_neg54 : pow2 (-54) = 1 / 18014398509481984 := by with_unfolding_all rfl

/-- Exactness of the binary64 conversion on small nonnegative integers. -/
theorem floatRound_int_exact {k : ℤ} (h0 : 0 ≤ k) (h1 : k < 2 ^ 53) :
    floatRound (k : ℚ) = (k : ℚ) := by
  rcases eq_or_lt_of_le h0 with h | h
  · rw [← h]
    rfl
  · have hk : (0 : ℚ) < (k : ℚ) := by exact_mod_cast h
    unfold floatRound
    rw [if_neg (ne_of_gt hk), if_pos hk]
    have hn : wexp (k : ℚ) ≤ 53 := by
      by_contra hc
      push_neg at hc
      have hw := (wexp_spec hk).1
      have h2 : pow2 53 ≤ pow2 (wexp (k : ℚ) - 1) := pow2_le_pow2 (by omega)
      have h3 : ((k : ℤ) : ℚ) < ((2 ^ 53 : ℤ) : ℚ) := by exact_mod_cast h1
      rw [← pow2_fiftythree] at h3
      linarith
    unfold floatRoundPos
    have hpow : pow2 (53 - wexp (k : ℚ)) = ((2 ^ (53 - wexp (k : ℚ)).toNat : ℤ) : ℚ) :=
      pow2_nonneg_eq _ (by omega)
    have harg : (k : ℚ) * pow2 (53 - wexp (k : ℚ)) =
        ((k * 2 ^ (53 - wexp (k : ℚ)).toNat : ℤ) : ℚ) := by
      rw [hpow]
      push_cast
      ring
    rw [harg, nearestEven_intCast]
    push_cast
    have hpow' : pow2 (53 - wexp (k : ℚ)) = (2 : ℚ) ^ (53 - wexp (k : ℚ)).toNat := by
      exact_mod_cast hpow
    have hcollapse : (2 : ℚ) ^ (53 - wexp (k : ℚ)).toNat * pow2 (wexp (k : ℚ) - 53) = 1 := by
      rw [← hpow', show wexp (k : ℚ) - 53 = -(53 - wexp (k : ℚ)) by ring, pow2_neg]
      exact mul_inv_cancel₀ (ne_of_gt (pow2_pos _))
    rw [mul_assoc, hcollapse, mul_one]

/-- A nonnegative value bounded a little below 1 rounds to a binary64 value
still strictly below 1. -/
theorem floatRound_lt_one {x : ℚ} (h0 : 0 ≤ x) (h1 : x ≤ 1 - pow2 (-43)) :
    floatRound x < 1 := by
  rcases eq_or_lt_of_le h0 with h | h
  · rw [← h]
    norm_num [floatRound]
  · have hx1 : x < 1 := by
      have := pow2_pos (-43)
      linarith
    have hn : wexp x ≤ 0 := by
      by_contra hc
      push_neg at hc
      have hw := (wexp_spec h).1
      have h2 : pow2 0 ≤ pow2 (wexp x - 1) := pow2_le_pow2 (by omega)
      rw [pow2_zero] at h2
      linarith
    unfold floatRound
    rw [if_neg (ne_of_gt h), if_pos h]
    unfold floatRoundPos
    have hmub := floatRoundPos_m_ub h
    have hmub' : (nearestEven (x * pow2 (53 - wexp x)) : ℚ) ≤ pow2 53 := by
      rw [pow2_fiftythree]
      exact_mod_cast hmub
    rcases lt_or_eq_of_le hn with hn1 | hn0
    · have hcalc : (nearestEven (x * pow2 (53 - wexp x)) : ℚ) * pow2 (wexp x - 53) ≤
          pow2 (wexp x) := by
        calc (nearestEven (x * pow2 (53 - wexp x)) : ℚ) * pow2 (wexp x - 53)
            ≤ pow2 53 * pow2 (wexp x - 53) :=
              mul_le_mul_of_nonneg_right hmub' (pow2_pos _).le
          _ = pow2 (wexp x) := by
              rw [← pow2_add]
              congr 1
              ring
      have h2 : pow2 (wexp x) ≤ pow2 (-1) := pow2_le_pow2 (by omega)
      rw [pow2_val_neg1] at h2
      linarith
    · have harg : x * pow2 (53 - wexp x) ≤ pow2 53 - pow2 10 := by
        have h2 : x * pow2 (53 - wexp x) ≤ (1 - pow2 (-43)) * pow2 (53 - wexp x) :=
          mul_le_mul_of_nonneg_right h1 (pow2_pos _).le
        have hmul : pow2 (-43) * pow2 (53 - wexp x) = pow2 10 := by
          rw [← pow2_add, hn0]
          norm_num
        have hseq : pow2 (53 - wexp x) = pow2 53 := by
          rw [hn0]
          norm_num
        rw [hseq] at h2 hmul
        rw [hseq]
        linarith [h2, hmul]
      have hne := nearestEven_le (x * pow2 (53 - wexp x))
      have hint : (nearestEven (x * pow2 (53 - wexp x)) : ℚ) ≤
          pow2 53 - pow2 10 + 1 / 2 := by linarith
      rw [pow2_val_53, pow2_val_10] at hint
      have hint2 : nearestEven (x * pow2 (53 - wexp x)) ≤ 9007199254739968 := by
        have hq : (nearestEven (x * pow2 (53 - wexp x)) : ℚ) <
            ((9007199254739969 : ℤ) : ℚ) := by
          push_cast
          linarith
        have hz : nearestEven (x * pow2 (53 - wexp x)) < (9007199254739969 : ℤ) := by
          exact_mod_cast hq
        omega
      have hint3 : (nearestEven (x * pow2 (53 - wexp x)) : ℚ) ≤ 9007199254739968 := by
        exact_mod_cast hint2
      have hpw : pow2 (wexp x - 53) = 1 / 9007199254740992 := by
        rw [hn0, show (0 : ℤ) - 53 = -53 by norm_num, pow2_val_neg53]
      have hfin : (nearestEven (x * pow2 (53 - wexp x)) : ℚ) * pow2 (wexp x - 53) ≤
          9007199254739968 * (1 / 9007199254740992) := by
        rw [hpw]
        exact mul_le_mul_of_nonneg_right hint3 (by norm_num)
      have hconst : (9007199254739968 : ℚ) * (1 / 9007199254740992) < 1 := by norm_num
      linarith

/-- The binary64 rounding of a value in `[0, 1)` exceeds the value by at most
`2^-54` (half the spacing of the binade `[1/2, 1)`). -/
theorem floatRound_le_add {x : ℚ} (h0 : 0 ≤ x) (h1 : x < 1) :
    floatRound x ≤ x + pow2 (-54) := by
  rcases eq_or_lt_of_le h0 with h | h
  · rw [← h]
    have := pow2_pos (-54)
    norm_num [floatRound]
    linarith
  · have hn : wexp x ≤ 0 := by
      by_contra hc
      push_neg at hc
      have hw := (wexp_spec h).1
      have h2 : pow2 0 ≤ pow2 (wexp x - 1) := pow2_le_pow2 (by omega)
      rw [pow2_zero] at h2
      linarith
    unfold floatRound
    rw [if_neg (ne_of_gt h), if_pos h]
    unfold floatRoundPos
    have hne := nearestEven_le (x * pow2 (53 - wexp x))
    have step1 : (nearestEven (x * pow2 (53 - wexp x)) : ℚ) * pow2 (wexp x - 53) ≤
        (x * pow2 (53 - wexp x) + 1 / 2) * pow2 (wexp x - 53) :=
      mul_le_mul_of_nonneg_right hne (pow2_pos _).le
    have hcollapse : pow2 (53 - wexp x) * pow2 (wexp x - 53) = 1 := by
      rw [← pow2_add]
      norm_num
      exact pow2_zero
    have hhalf : (1 / 2 : ℚ) * pow2 (wexp x - 53) = pow2 (wexp x - 54) := by
      rw [← pow2_val_neg1, ← pow2_add]
      congr 1
      ring
    have step2 : (x * pow2 (53 - wexp x) + 1 / 2) * pow2 (wexp x - 53) =
        x + pow2 (wexp x - 54) := by
      have expand : (x * pow2 (53 - wexp x) + 1 / 2) * pow2 (wexp x - 53) =
          x * (pow2 (53 - wexp x) * pow2 (wexp x - 53)) +
            (1 / 2) * pow2 (wexp x - 53) := by ring
      rw [expand, hcollapse, mul_one, hhalf]
    have step3 : pow2 (wexp x - 54) ≤ pow2 (-54) := pow2_le_pow2 (by omega)
    linarith [step1, step2.le, step2.ge]

/-- Go truncating remainder negates with the dividend. -/
theorem tmod_neg_dividend (a b : ℤ) : Int.tmod (-a) b = -(Int.tmod a b) := by
  have h1 := Int.tdiv_add_tmod a b
  have h2 := Int.tdiv_add_tmod (-a) b
  rw [Int.neg_tdiv] at h2
  linarith [h1, h2]

namespace Nested

/-- Common shape of `durHours`/`durMinutes`/`durSeconds`. -/
def durPart (D d : ℤ) : ℚ :=
  floatRound (f64ofInt (Int.tdiv d D) + floatRound (f64ofInt (Int.tmod d D) / (D : ℚ)))

theorem durHours_eq (d : ℤ) : durHours d = durPart 3600000000000 d := rfl

theorem durMinutes_eq (d : ℤ) : durMinutes d = durPart 60000000000 d := rfl

theorem durSeconds_eq (d : ℤ) : durSeconds d = durPart 1000000000 d := rfl

/-- When the duration reaches one unit, the unit value is at least 1. -/
theorem one_le_durPart {D d : ℤ} (hD : 0 < D) (hd : D ≤ d) : 1 ≤ durPart D d := by
  have h0d : (0 : ℤ) ≤ d := le_trans hD.le hd
  have hhour : 1 ≤ Int.tdiv d D := by
    rw [Int.tdiv_eq_ediv h0d hD.le]
    exact (Int.le_ediv_iff_mul_le hD).mpr (by omega)
  have hhourq : (1 : ℚ) ≤ ((Int.tdiv d D : ℤ) : ℚ) := by exact_mod_cast hhour
  have hf1 : 1 ≤ f64ofInt (Int.tdiv d D) := one_le_floatRound hhourq
  have hnsec : (0 : ℤ) ≤ Int.tmod d D := Int.tmod_nonneg D h0d
  have hnsecq : (0 : ℚ) ≤ ((Int.tmod d D : ℤ) : ℚ) := by exact_mod_cast hnsec
  have hinner : 0 ≤ floatRound (f64ofInt (Int.tmod d D) / (D : ℚ)) := by
    apply floatRound_nonneg
    apply div_nonneg (floatRound_nonneg hnsecq)
    exact_mod_cast hD.le
  exact one_le_floatRound (by linarith)

/-- Below one unit (with a unit divisor of at most `2^42` nanoseconds), the
unit value stays strictly below 1. -/
theorem durPart_lt_one {D d : ℤ} (hD : 0 < D) (hD42 : D ≤ 2 ^ 42)
    (h0 : 0 ≤ d) (hd : d < D) : durPart D d < 1 := by
  have hD53 : D < 2 ^ 53 := by omega
  have hhour : Int.tdiv d D = 0 := by
    rw [Int.tdiv_eq_ediv h0 hD.le]
    exact Int.ediv_eq_zero_of_lt h0 hd
  have hnsec : Int.tmod d D = d := by
    rw [Int.tmod_eq_emod h0 hD.le]
    exact Int.emod_eq_of_lt h0 hd
  have hf0 : f64ofInt (Int.tdiv d D) = 0 := by
    rw [hhour]
    rfl
  have hfd : f64ofInt (Int.tmod d D) = ((d : ℤ) : ℚ) := by
    rw [hnsec]
    exact floatRound_int_exact h0 (by omega)
  have hDq : (0 : ℚ) < (D : ℚ) := by exact_mod_cast hD
  have hdq : ((d : ℤ) : ℚ) ≤ (D : ℚ) - 1 := by
    have : d ≤ D - 1 := by omega
    exact_mod_cast this
  -- the exact ratio is at most 1 - 1/D ≤ 1 - 2^-42
  have hratio_ub : ((d : ℤ) : ℚ) / (D : ℚ) ≤ 1 - pow2 (-42) := by
    have hD42q : (D : ℚ) ≤ 4398046511104 := by exact_mod_cast hD42
    rw [pow2_val_neg42, div_le_iff₀ hDq]
    have key : (1 - 1 / 4398046511104 : ℚ) * (D : ℚ) = (D : ℚ) - (D : ℚ) / 4398046511104 := by
      ring
    rw [key]
    have : (D : ℚ) / 4398046511104 ≤ 1 := by
      rw [div_le_one (by norm_num : (0:ℚ) < 4398046511104)]
      linarith
    linarith
  have hratio_nn : (0 : ℚ) ≤ ((d : ℤ) : ℚ) / (D : ℚ) := by
    apply div_nonneg _ hDq.le
    exact_mod_cast h0
  have hratio_lt1 : ((d : ℤ) : ℚ) / (D : ℚ) < 1 := by
    have := pow2_pos (-42)
    linarith
  set inner := floatRound (((d : ℤ) : ℚ) / (D : ℚ)) with hinner_def
  have hinner_nn : 0 ≤ inner := floatRound_nonneg hratio_nn
  have hinner_ub : inner ≤ ((d : ℤ) : ℚ) / (D : ℚ) + pow2 (-54) :=
    floatRound_le_add hratio_nn hratio_lt1
  have hslack : 1 - pow2 (-42) + pow2 (-54) ≤ 1 - pow2 (-43) := by
    rw [pow2_val_neg42, pow2_val_neg43, pow2_val_neg54]
    norm_num
  have hinner_ub2 : inner ≤ 1 - pow2 (-43) := by linarith
  have : durPart D d = floatRound inner := by
    unfold durPart
    rw [hf0, hfd, zero_add]
  rw [this]
  exact floatRound_lt_one hinner_nn hinner_ub2

/-- For nonpositive durations the unit value is nonpositive. -/
theorem durPart_nonpos {D d : ℤ} (hD : 0 < D) (hd : d ≤ 0) : durPart D d ≤ 0 := by
  have hhour : Int.tdiv d D ≤ 0 := by
    have h := Int.tdiv_nonneg (show (0:ℤ) ≤ -d by omega) hD.le
    rw [Int.neg_tdiv] at h
    omega
  have hnsec : Int.tmod d D ≤ 0 := by
    have h := Int.tmod_nonneg D (show (0:ℤ) ≤ -d by omega)
    rw [tmod_neg_dividend] at h
    omega
  have hhourq : ((Int.tdiv d D : ℤ) : ℚ) ≤ 0 := by exact_mod_cast hhour
  have hnsecq : ((Int.tmod d D : ℤ) : ℚ) ≤ 0 := by exact_mod_cast hnsec
  have hf1 : f64ofInt (Int.tdiv d D) ≤ 0 := floatRound_nonpos hhourq
  have hDq : (0 : ℚ) < (D : ℚ) := by exact_mod_cast hD
  have hinner : floatRound (f64ofInt (Int.tmod d D) / (D : ℚ)) ≤ 0 := by
    apply floatRound_nonpos
    exact div_nonpos_of_nonpos_of_nonneg (floatRound_nonpos hnsecq) hDq.le
  exact floatRound_nonpos (by linarith)

end Nested

theorem wrap64_eq_self {z : ℤ} (h1 : -(2 ^ 63) ≤ z) (h2 : z < 2 ^ 63) :
    Nested.wrap64 z = z := by
  unfold Nested.wrap64
  rw [Int.emod_eq_of_lt (by omega) (by omega)]
  ring

theorem formatDuration_pos_eq {ms : ℤ} (h0 : 0 < ms) (hub : ms ≤ 9223372036854) :
    Nested.formatDuration ms =
      if 3600000 ≤ ms then fmt1f (Nested.durHours (ms * 1000000)) ++ "h"
      else if 60000 ≤ ms then fmt1f (Nested.durMinutes (ms * 1000000)) ++ "m"
      else fmt1f (Nested.durSeconds (ms * 1000000)) ++ "s" := by
  have hwrap : Nested.wrap64 (ms * 1000000) = ms * 1000000 :=
    wrap64_eq_self (by omega) (by omega)
  unfold Nested.formatDuration
  rw [if_neg (by omega : ¬ ms = 0), hwrap]
  by_cases hh : 3600000 ≤ ms
  · rw [if_pos hh]
    have h1 : 1 ≤ Nested.durHours (ms * 1000000) := by
      rw [Nested.durHours_eq]
      exact Nested.one_le_durPart (by norm_num) (by omega)
    rw [if_pos h1]
  · rw [if_neg hh]
    have hhlt : Nested.durHours (ms * 1000000) < 1 := by
      rw [Nested.durHours_eq]
      exact Nested.durPart_lt_one (by norm_num) (by norm_num) (by omega) (by omega)
    rw [if_neg (not_le.mpr hhlt)]
    by_cases hm : 60000 ≤ ms
    · rw [if_pos hm]
      have h1 : 1 ≤ Nested.durMinutes (ms * 1000000) := by
        rw [Nested.durMinutes_eq]
        exact Nested.one_le_durPart (by norm_num) (by omega)
      rw [if_pos h1]
    · rw [if_neg hm]
      have hmlt : Nested.durMinutes (ms * 1000000) < 1 := by
        rw [Nested.durMinutes_eq]
        exact Nested.durPart_lt_one (by norm_num) (by norm_num) (by omega) (by omega)
      rw [if_neg (not_le.mpr hmlt)]

theorem formatDuration_neg_eq {ms : ℤ} (hlb : -9223372036854 ≤ ms) (hneg : ms < 0) :
    Nested.formatDuration ms = fmt1f (Nested.durSeconds (ms * 1000000)) ++ "s" := by
  have hwrap : Nested.wrap64 (ms * 1000000) = ms * 1000000 :=
    wrap64_eq_self (by omega) (by omega)
  unfold Nested.formatDuration
  rw [if_neg (by omega : ¬ ms = 0), hwrap]
  have hh : Nested.durHours (ms * 1000000) < 1 := by
    rw [Nested.durHours_eq]
    have := Nested.durPart_nonpos (by norm_num : (0:ℤ) < 3600000000000)
      (show ms * 1000000 ≤ 0 by omega)
    linarith
  have hm : Nested.durMinutes (ms * 1000000) < 1 := by
    rw [Nested.durMinutes_eq]
    have := Nested.durPart_nonpos (by norm_num : (0:ℤ) < 60000000000)
      (show ms * 1000000 ≤ 0 by omega)
    linarith
  rw [if_neg (not_le.mpr hh), if_neg (not_le.mpr hm)]

theorem append_s_ne_NA (t : String) : t ++ "s" ≠ "N/A" := by
  intro h
  have h2 : t.data ++ ['s'] = ['N', '/', 'A'] := by
    have := congrArg String.data h
    simpa using this
  rcases ht : t.data with _ | ⟨a, _ | ⟨b, _ | ⟨c, l⟩⟩⟩ <;> rw [ht] at h2 <;> simp_all

/-! ## Claim C6 -/

/-- Claim C6 counterexample: the claim quantifies over every `ms > 0`, but
`time.Duration(duration) * time.Millisecond` is wrapping int64 arithmetic, so
at `ms = 10^13` (≥ 3600000, which the claim sends to the hours branch with
suffix `h`) the nanosecond product overflows, the wrapped duration is
negative, and the code renders the seconds branch: `"-8446744073.7s"`. -/
theorem c6_overflow_counterexample :
    0 < (10000000000000 : ℤ) ∧ (3600000 : ℤ) ≤ 10000000000000 ∧
    Nested.formatDuration 10000000000000 = "-8446744073.7s" ∧
    Nested.formatDuration 10000000000000 ≠
      fmt1f (Nested.durHours (Nested.wrap64 (10000000000000 * 1000000))) ++ "h" := by
  refine ⟨by decide, by decide, by with_unfolding_all rfl, ?_⟩
  with_unfolding_all decide

/-- Claim C6 (amended): `FormatDuration(0)` is the literal `"N/A"`; for every
`ms > 0` small enough that the conversion to nanoseconds does not overflow
int64 (`ms ≤ 9223372036854`), the duration renders in exactly one unit with
one decimal place: hours (suffix `h`) when `ms ≥ 3600000`, else minutes
(suffix `m`) when `ms ≥ 60000`, else seconds (suffix `s`); in particular
`FormatDuration(90000) = "1.5m"`, `FormatDuration(3600000) = "1.0h"`, and
`FormatDuration(5000) = "5.0s"`.  (Beyond the overflow bound the wrapped
int64 value selects the branch instead — see the counterexample.) -/
theorem c6_format_duration (ms : ℤ) (h0 : 0 < ms) (hub : ms ≤ 9223372036854) :
    Nested.formatDuration 0 = "N/A" ∧
    Nested.formatDuration ms =
      (if 3600000 ≤ ms then fmt1f (Nested.durHours (ms * 1000000)) ++ "h"
       else if 60000 ≤ ms then fmt1f (Nested.durMinutes (ms * 1000000)) ++ "m"
       else fmt1f (Nested.durSeconds (ms * 1000000)) ++ "s") ∧
    Nested.formatDuration 90000 = "1.5m" ∧
    Nested.formatDuration 3600000 = "1.0h" ∧
    Nested.formatDuration 5000 = "5.0s" :=
  ⟨rfl, formatDuration_pos_eq h0 hub,
   by with_unfolding_all rfl, by with_unfolding_all rfl, by with_unfolding_all rfl⟩

/-- Witness for `c6_format_duration` at `ms = 90000` (minutes branch). -/
theorem c6_format_duration_witness :
    0 < (90000 : ℤ) ∧ (90000 : ℤ) ≤ 9223372036854 ∧
    Nested.formatDuration 90000 =
      (if 3600000 ≤ (90000 : ℤ) then fmt1f (Nested.durHours (90000 * 1000000)) ++ "h"
       else if 60000 ≤ (90000 : ℤ) then fmt1f (Nested.durMinutes (90000 * 1000000)) ++ "m"
       else fmt1f (Nested.durSeconds (90000 * 1000000)) ++ "s") :=
  ⟨by decide, by decide, (c6_format_duration 90000 (by decide) (by decide)).2.1⟩

/-! ## Claim C10 -/

/-- Claim C10 counterexample: the claim quantifies over every `ms < 0`, but
at `ms = -10^13` the wrapping int64 nanosecond conversion makes the duration
positive and large, so the hours branch renders (`"2346317.8h"`, final
character `h`), not the seconds branch with suffix `s`. -/
theorem c10_overflow_counterexample :
    (-10000000000000 : ℤ) < 0 ∧
    Nested.formatDuration (-10000000000000) = "2346317.8h" ∧
    (Nested.formatDuration (-10000000000000)).data.getLast? = some 'h' := by
  refine ⟨by decide, by with_unfolding_all rfl, ?_⟩
  with_unfolding_all rfl

/-- Claim C10 (amended): for every strictly negative `ms` down to the int64
overflow bound (`-9223372036854 ≤ ms < 0`), `FormatDuration` does not return
`"N/A"` and always renders the (negative) value in the seconds branch with
one decimal place and suffix `s`; in particular
`FormatDuration(-5000) = "-5.0s"`.  (Below the bound the wrapped int64 value
can select the hours or minutes branch — see the counterexample.) -/
theorem c10_negative_duration (ms : ℤ) (hlb : -9223372036854 ≤ ms) (hneg : ms < 0) :
    Nested.formatDuration ms = fmt1f (Nested.durSeconds (ms * 1000000)) ++ "s" ∧
    Nested.formatDuration ms ≠ "N/A" ∧
    Nested.formatDuration (-5000) = "-5.0s" := by
  have heq := formatDuration_neg_eq hlb hneg
  refine ⟨heq, ?_, by with_unfolding_all rfl⟩
  rw [heq]
  exact append_s_ne_NA _

/-- Witness for `c10_negative_duration` at `ms = -5000`. -/
theorem c10_negative_duration_witness :
    -9223372036854 ≤ (-5000 : ℤ) ∧ (-5000 : ℤ) < 0 ∧
    Nested.formatDuration (-5000) = fmt1f (Nested.durSeconds (-5000 * 1000000)) ++ "s" :=
  ⟨by decide, by decide, (c10_negative_duration (-5000) (by decide) (by decide)).1⟩
